import Mathlib

/-!
Verification of the ITP (Image Transfer Protocol) client/server implementation.

The JavaScript source is shallowly embedded:
* buffers (`Node Buffer`) are `List Nat` of byte values, allocated zero-filled;
* JavaScript 32-bit bitwise operator semantics (`<<`, `|`, `&` operate on the
  operands converted to signed 32-bit integers, shift counts are taken mod 32)
  are modelled by `toUint32` / `toInt32` / `jsShl32` / `jsOr32` / `jsAnd32`;
* `n.toString(2)` is modelled by `jsToString2` (a sign character followed by
  the most-significant-first binary digits of the magnitude);
* out-of-range string indexing (which yields `undefined` in JavaScript, a value
  distinct from every one-character string) is modelled by `jsCharAt` returning
  a space character, which is only ever compared against the digit characters;
* out-of-range buffer reads yield 0 (`undefined` coerced by `>>`/`&`), and
  out-of-range buffer writes are ignored, matching `Uint8Array` semantics;
* strings travelling through the codec are `List Nat` of UTF-16 code units
  (the repository only ever manipulates BMP characters); `Buffer.write` with
  its default utf8 encoding and `Buffer#toString` are modelled by
  `bufferWrite` / `utf8Dec` over `utf8Bytes`.
-/

/-- JavaScript ToUint32: the argument reduced into `[0, 2^32)`. -/
def toUint32 (x : Int) : Nat := (x % 4294967296).toNat

/-- JavaScript ToInt32: the low 32 bits of the argument, read as a signed
two's-complement value in `[-2^31, 2^31)`. -/
def toInt32 (x : Int) : Int :=
  if toUint32 x < 2147483648 then (toUint32 x : Int) else (toUint32 x : Int) - 4294967296

/-- JavaScript `a << b` (signed 32-bit shift, count taken mod 32). -/
def jsShl32 (a b : Int) : Int := toInt32 ((toUint32 a <<< (toUint32 b % 32) : Nat) : Int)

/-- JavaScript `a | b`: bitwise OR of the 32-bit patterns, read back signed. -/
def jsOr32 (a b : Int) : Int := toInt32 ((toUint32 a ||| toUint32 b : Nat) : Int)

/-- JavaScript `a & b`: bitwise AND of the 32-bit patterns, read back signed. -/
def jsAnd32 (a b : Int) : Int := toInt32 ((toUint32 a &&& toUint32 b : Nat) : Int)

theorem toUint32_lt (x : Int) : toUint32 x < 4294967296 := by
  unfold toUint32
  have h1 : x % 4294967296 < 4294967296 := Int.emod_lt_of_pos x (by norm_num)
  have h2 : 0 ≤ x % 4294967296 := Int.emod_nonneg x (by norm_num)
  omega

theorem toUint32_congr {a b : Int} (h : a % 4294967296 = b % 4294967296) :
    toUint32 a = toUint32 b := by unfold toUint32; rw [h]

theorem toInt32_congr {a b : Int} (h : a % 4294967296 = b % 4294967296) :
    toInt32 a = toInt32 b := by unfold toInt32; rw [toUint32_congr h]

theorem toUint32_ofNat (n : Nat) (h : n < 4294967296) : toUint32 (n : Int) = n := by
  unfold toUint32
  rw [Int.emod_eq_of_lt (by positivity) (by exact_mod_cast h)]
  exact Int.toNat_natCast n

theorem emod_toUint32 (x : Int) : (toUint32 x : Int) % 4294967296 = x % 4294967296 := by
  unfold toUint32
  have h2 : 0 ≤ x % 4294967296 := Int.emod_nonneg x (by norm_num)
  rw [Int.toNat_of_nonneg h2]
  exact Int.emod_emod_of_dvd x dvd_rfl

theorem toUint32_toInt32 (x : Int) : toUint32 (toInt32 x) = toUint32 x := by
  unfold toInt32
  by_cases h : toUint32 x < 2147483648
  · simp only [h, if_true]
    exact toUint32_ofNat _ (toUint32_lt x)
  · simp only [h, if_false]
    apply toUint32_congr
    rw [Int.sub_emod, Int.emod_self, sub_zero, Int.emod_emod_of_dvd _ dvd_rfl, emod_toUint32]

theorem toInt32_ofNat (n : Nat) (h : n < 2147483648) : toInt32 (n : Int) = n := by
  unfold toInt32
  rw [toUint32_ofNat n (by omega)]
  simp [h]

/-! ### Byte buffers and single-bit access -/

/-- Bit `pos` of a buffer, most-significant-bit-first within each byte, exactly
as every bit read in the source computes it: `(buf[pos/8] >> (7 - pos%8)) & 1`.
Out-of-range bytes read as 0. -/
def getBufBit (buf : List Nat) (pos : Nat) : Nat :=
  (buf.getD (pos / 8) 0 >>> (7 - pos % 8)) &&& 1

/-- Set or clear bit `pos` of a buffer: `buf[i] |= (1 << b)` respectively
`buf[i] &= ~(1 << b)` with the result stored as a byte. Out-of-range writes
are ignored (`List.set` out of range is the identity), as for a `Uint8Array`. -/
def setBufBit (buf : List Nat) (pos : Nat) (b : Bool) : List Nat :=
  let byteIdx := pos / 8
  let bitIdx := 7 - pos % 8
  if b then buf.set byteIdx (buf.getD byteIdx 0 ||| (1 <<< bitIdx))
  else buf.set byteIdx (buf.getD byteIdx 0 &&& (255 ^^^ (1 <<< bitIdx)))

theorem setBufBit_length (buf : List Nat) (pos : Nat) (b : Bool) :
    (setBufBit buf pos b).length = buf.length := by
  unfold setBufBit; cases b <;> simp

theorem shiftRight_and_one (x m : Nat) :
    (x >>> m) &&& 1 = if x.testBit m then 1 else 0 := by
  rw [Nat.and_one_is_mod, Nat.shiftRight_eq_div_pow, Nat.testBit_to_div_mod]
  have : x / 2 ^ m % 2 < 2 := Nat.mod_lt _ (by norm_num)
  by_cases h : x / 2 ^ m % 2 = 1 <;> simp [h] <;> omega

theorem getD_set_ne (l : List Nat) (i j v : Nat) (h : i ≠ j) :
    (l.set i v).getD j 0 = l.getD j 0 := by
  rw [List.getD_eq_getElem?_getD, List.getD_eq_getElem?_getD, List.getElem?_set_ne h]

theorem getD_set_self (l : List Nat) (i v : Nat) (h : i < l.length) :
    (l.set i v).getD i 0 = v := by
  rw [List.getD_eq_getElem?_getD, List.getElem?_set_self h]
  rfl

theorem testBit_one_shl (m j : Nat) : (1 <<< m).testBit j = decide (j = m) := by
  rw [Nat.testBit_shiftLeft]
  by_cases h : j = m
  · subst h; simp [Nat.testBit_zero]
  · by_cases h2 : m ≤ j
    · have h3 : 1 ≤ j - m := by omega
      have : (1 : Nat).testBit (j - m) = false :=
        Nat.testBit_eq_false_of_lt (by calc (1:Nat) < 2^1 := by norm_num
                                         _ ≤ 2^(j-m) := Nat.pow_le_pow_right (by norm_num) h3)
      simp [h, h2, this]
    · simp [h, h2, ge_iff_le]

theorem getBufBit_setBufBit_self (buf : List Nat) (pos : Nat) (b : Bool)
    (h : pos / 8 < buf.length) :
    getBufBit (setBufBit buf pos b) pos = if b then 1 else 0 := by
  have hm : 7 - pos % 8 ≤ 7 := by omega
  unfold getBufBit setBufBit
  cases b
  · simp only [if_false, Bool.false_eq_true]
    rw [getD_set_self _ _ _ h, shiftRight_and_one]
    rw [show (255 : Nat) = 2 ^ 8 - 1 by norm_num]
    rw [Nat.testBit_land, Nat.testBit_xor, Nat.testBit_two_pow_sub_one, testBit_one_shl]
    simp [show 7 - pos % 8 < 8 by omega]
  · simp only [if_true]
    rw [getD_set_self _ _ _ h, shiftRight_and_one]
    rw [Nat.testBit_lor, testBit_one_shl]
    simp

theorem getBufBit_setBufBit_ne (buf : List Nat) (pos q : Nat) (b : Bool)
    (h : q ≠ pos) : getBufBit (setBufBit buf pos b) q = getBufBit buf q := by
  have main : ∀ V : Nat,
      (∀ j, j < 8 → j ≠ 7 - pos % 8 → V.testBit j = (buf.getD (pos / 8) 0).testBit j) →
      (buf.set (pos / 8) V).getD (q / 8) 0 >>> (7 - q % 8) &&& 1 =
        buf.getD (q / 8) 0 >>> (7 - q % 8) &&& 1 := by
    intro V hV
    by_cases hbyte : q / 8 = pos / 8
    · by_cases hlen : pos / 8 < buf.length
      · have hbit : q % 8 ≠ pos % 8 := by omega
        rw [hbyte, getD_set_self _ _ _ hlen, shiftRight_and_one, shiftRight_and_one,
          hV (7 - q % 8) (by omega) (by omega)]
      · rw [List.set_eq_of_length_le (by omega)]
    · rw [getD_set_ne _ _ _ _ (fun hh => hbyte hh.symm)]
  unfold getBufBit setBufBit
  cases b
  · simp only [Bool.false_eq_true, if_false]
    apply main
    intro j hj8 hj
    rw [show (255 : Nat) = 2 ^ 8 - 1 by norm_num, Nat.testBit_land, Nat.testBit_xor,
      Nat.testBit_two_pow_sub_one, testBit_one_shl]
    simp [hj8, hj]
  · simp only [if_true]
    apply main
    intro j hj8 hj
    rw [Nat.testBit_lor, testBit_one_shl]
    simp [hj]

/-! ### JavaScript binary strings: `data.toString(2)`, `padStart`, `charAt` -/

/-- Binary digits of a natural number, least significant first (helper with
explicit fuel so that the definition is structurally recursive). -/
def binDigitsLEAux : Nat → Nat → List Char
  | 0, _ => []
  | fuel + 1, n =>
    if n = 0 then [] else (if n % 2 = 1 then '1' else '0') :: binDigitsLEAux fuel (n / 2)

/-- Binary digits of a natural number, least significant first; empty for 0. -/
def binDigitsLE (n : Nat) : List Char := binDigitsLEAux n n

/-- JavaScript `data.toString(2)`: an optional sign character followed by the
binary digits of the magnitude, most significant first ("0" for zero). -/
def jsToString2 (d : Int) : List Char :=
  if d < 0 then '-' :: (binDigitsLE d.natAbs).reverse
  else if d = 0 then ['0'] else (binDigitsLE d.natAbs).reverse

/-- JavaScript `str.padStart(n, c)`. -/
def padStart (s : List Char) (n : Nat) (c : Char) : List Char :=
  List.replicate (n - s.length) c ++ s

/-- JavaScript `str[i]` for a possibly out-of-range (or negative) index; the
out-of-range result `undefined` is modelled by a space character, which the
source only ever compares against `'1'`. -/
def jsCharAt (s : List Char) (i : Int) : Char :=
  if 0 ≤ i ∧ i < (s.length : Int) then s.getD i.toNat ' ' else ' '

theorem binDigitsLEAux_zero (f : Nat) : binDigitsLEAux f 0 = [] := by
  cases f <;> simp [binDigitsLEAux]

theorem binDigitsLEAux_congr : ∀ f1 f2 n : Nat, n ≤ f1 → n ≤ f2 →
    binDigitsLEAux f1 n = binDigitsLEAux f2 n := by
  intro f1
  induction f1 with
  | zero =>
    intro f2 n h1 _
    have hn : n = 0 := by omega
    subst hn
    rw [binDigitsLEAux_zero, binDigitsLEAux_zero]
  | succ f ih =>
    intro f2 n h1 h2
    cases n with
    | zero => rw [binDigitsLEAux_zero, binDigitsLEAux_zero]
    | succ m =>
      cases f2 with
      | zero => omega
      | succ g =>
        simp only [binDigitsLEAux, if_neg (Nat.succ_ne_zero m)]
        rw [ih g ((m + 1) / 2) (by omega) (by omega)]

theorem binDigitsLE_eq (n : Nat) :
    binDigitsLE n = if n = 0 then [] else
      (if n % 2 = 1 then '1' else '0') :: binDigitsLE (n / 2) := by
  unfold binDigitsLE
  match n with
  | 0 => simp [binDigitsLEAux]
  | m + 1 =>
    simp only [binDigitsLEAux, if_neg (Nat.succ_ne_zero m)]
    rw [binDigitsLEAux_congr m ((m + 1) / 2) ((m + 1) / 2) (by omega) (by omega)]

theorem binDigitsLE_lt_two_pow (n : Nat) : n < 2 ^ (binDigitsLE n).length := by
  induction n using Nat.strong_induction_on with
  | _ n ih =>
    by_cases h : n = 0
    · subst h
      rw [binDigitsLE_eq]
      simp
    · have := ih (n / 2) (by omega)
      rw [binDigitsLE_eq, if_neg h, List.length_cons, pow_succ]
      omega

theorem binDigitsLE_length_pos (n : Nat) (h : 0 < n) : 0 < (binDigitsLE n).length := by
  rw [binDigitsLE_eq, if_neg (by omega)]
  simp

theorem binDigitsLE_getD (n j : Nat) (h : j < (binDigitsLE n).length) :
    (binDigitsLE n).getD j ' ' = if n.testBit j then '1' else '0' := by
  induction n using Nat.strong_induction_on generalizing j with
  | _ n ih =>
    by_cases h0 : n = 0
    · rw [binDigitsLE_eq] at h
      simp [h0] at h
    · rw [binDigitsLE_eq, if_neg h0]
      match j with
      | 0 =>
        simp only [List.getD, List.getElem?_cons_zero, Option.getD_some, Nat.testBit_zero]
        by_cases hp : n % 2 = 1 <;> simp [hp]
      | j + 1 =>
        rw [binDigitsLE_eq, if_neg h0] at h
        simp only [List.getD_cons_succ]
        rw [ih (n / 2) (by omega) j (by simpa using h), Nat.testBit_succ]

theorem testBit_ge_binDigitsLE_length (n j : Nat) (h : (binDigitsLE n).length ≤ j) :
    n.testBit j = false :=
  Nat.testBit_eq_false_of_lt
    (lt_of_lt_of_le (binDigitsLE_lt_two_pow n) (Nat.pow_le_pow_right (by norm_num) h))

theorem getD_reverse_char (l : List Char) (j : Nat) (h : j < l.length) :
    l.reverse.getD (l.length - 1 - j) ' ' = l.getD j ' ' := by
  rw [List.getD_eq_getElem?_getD, List.getD_eq_getElem?_getD]
  rw [List.getElem?_eq_getElem (by simp; omega), List.getElem?_eq_getElem (by omega)]
  simp only [Option.getD_some]
  rw [List.getElem_reverse]
  congr 1
  omega

/-- The character the bit-packing loops read for the bit of weight `2^j`:
character index `len - 1 - j` of `data.toString(2)` holds digit `j` of the
magnitude (counting from the least significant digit); the sign position and
indices past the left end read as a character that is not `'1'`. -/
theorem jsCharAt_jsToString2 (d : Int) (j : Nat) :
    (jsCharAt (jsToString2 d) (((jsToString2 d).length : Int) - 1 - (j : Int)) = '1') =
      (d.natAbs.testBit j = true) := by
  rcases lt_trichotomy d 0 with hneg | hzero | hpos
  · have habs : 0 < d.natAbs := by omega
    set L := (binDigitsLE d.natAbs).length with hL
    have hstr : jsToString2 d = '-' :: (binDigitsLE d.natAbs).reverse := by
      rw [jsToString2, if_pos hneg]
    have hlen : (jsToString2 d).length = L + 1 := by simp [hstr, hL]
    by_cases hj : j < L
    · have hchar : jsCharAt (jsToString2 d) (((jsToString2 d).length : Int) - 1 - (j : Int)) =
          (binDigitsLE d.natAbs).getD j ' ' := by
        rw [jsCharAt, if_pos (by rw [hlen]; push_cast; omega)]
        rw [hlen, hstr]
        have hidx : (((L : Int) + 1 - 1 - (j : Int))).toNat = (L - 1 - j) + 1 := by omega
        rw [show ((L + 1 : Nat) : Int) - 1 - (j : Int) = (L : Int) + 1 - 1 - (j : Int) by
          push_cast; ring, hidx, List.getD_cons_succ]
        exact getD_reverse_char _ _ (by omega)
      rw [hchar, binDigitsLE_getD _ _ (by omega)]
      by_cases ht : d.natAbs.testBit j <;> simp [ht]
    · have ht : d.natAbs.testBit j = false := testBit_ge_binDigitsLE_length _ _ (by omega)
      rw [ht]
      by_cases hj2 : j = L
      · have hchar : jsCharAt (jsToString2 d) (((jsToString2 d).length : Int) - 1 - (j : Int)) =
            '-' := by
          rw [jsCharAt, if_pos (by rw [hlen]; push_cast; omega), hlen, hstr]
          rw [show ((L + 1 : Nat) : Int) - 1 - (j : Int) = 0 by push_cast; omega]
          rfl
        rw [hchar]
        simp
      · have hchar : jsCharAt (jsToString2 d) (((jsToString2 d).length : Int) - 1 - (j : Int)) =
            ' ' := by
          rw [jsCharAt, if_neg (by rw [hlen]; push_cast; omega)]
        rw [hchar]
        simp
  · subst hzero
    have hstr : jsToString2 0 = ['0'] := by rw [jsToString2]; norm_num
    rw [hstr]
    simp only [Int.natAbs_zero, Nat.zero_testBit]
    match j with
    | 0 =>
      have : jsCharAt ['0'] (((['0'] : List Char).length : Int) - 1 - ((0 : Nat) : Int)) =
          '0' := by rw [jsCharAt]; simp [List.getD]
      rw [this]
      simp
    | j + 1 =>
      have : jsCharAt ['0'] (((['0'] : List Char).length : Int) - 1 - ((j + 1 : Nat) : Int)) =
          ' ' := by
        rw [jsCharAt, if_neg (by simp only [List.length_cons, List.length_nil]; push_cast; omega)]
      rw [this]
      simp
  · have habs : 0 < d.natAbs := by omega
    set L := (binDigitsLE d.natAbs).length with hL
    have hLpos : 0 < L := binDigitsLE_length_pos _ habs
    have hstr : jsToString2 d = (binDigitsLE d.natAbs).reverse := by
      rw [jsToString2, if_neg (by omega), if_neg (by omega)]
    have hlen : (jsToString2 d).length = L := by simp [hstr, hL]
    by_cases hj : j < L
    · have hchar : jsCharAt (jsToString2 d) (((jsToString2 d).length : Int) - 1 - (j : Int)) =
          (binDigitsLE d.natAbs).getD j ' ' := by
        rw [jsCharAt, if_pos (by rw [hlen]; push_cast; omega), hlen, hstr]
        have hidx : (((L : Int) - 1 - (j : Int))).toNat = L - 1 - j := by omega
        rw [hidx]
        exact getD_reverse_char _ _ (by omega)
      rw [hchar, binDigitsLE_getD _ _ (by omega)]
      by_cases ht : d.natAbs.testBit j <;> simp [ht]
    · have ht : d.natAbs.testBit j = false := testBit_ge_binDigitsLE_length _ _ (by omega)
      rw [ht]
      have hchar : jsCharAt (jsToString2 d) (((jsToString2 d).length : Int) - 1 - (j : Int)) =
          ' ' := by rw [jsCharAt, if_neg (by rw [hlen]; push_cast; omega)]
      rw [hchar]
      simp

/-- Same reading, for the `padStart`-padded string used by the client encoder
(nonnegative data): padding characters are `'0'` and land exactly on the high
bits the magnitude does not reach. -/
theorem jsCharAt_padStart (d : Int) (hd : 0 ≤ d) (size j : Nat) (hj : j < size) :
    (jsCharAt (padStart (jsToString2 d) size '0')
      (((padStart (jsToString2 d) size '0').length : Int) - 1 - (j : Int)) = '1') =
      (d.natAbs.testBit j = true) := by
  set S := jsToString2 d with hS
  have hPlen : (padStart S size '0').length = (size - S.length) + S.length := by
    simp [padStart]
  by_cases hcase : j < S.length
  · have heq : jsCharAt (padStart S size '0')
        (((padStart S size '0').length : Int) - 1 - (j : Int)) =
        jsCharAt S ((S.length : Int) - 1 - (j : Int)) := by
      rw [jsCharAt, jsCharAt, if_pos (by rw [hPlen]; push_cast; omega),
        if_pos (by push_cast; omega)]
      have hidx : (((padStart S size '0').length : Int) - 1 - (j : Int)).toNat =
          (size - S.length) + (((S.length : Int) - 1 - (j : Int)).toNat) := by
        rw [hPlen]; push_cast; omega
      rw [hidx, padStart, List.getD_append_right _ _ _ _ (by simp)]
      simp
    rw [heq, hS]
    exact jsCharAt_jsToString2 d j
  · have ht : d.natAbs.testBit j = false := by
      rcases Int.le_iff_lt_or_eq.mp hd with hpos | hzero
      · have hstr : S = (binDigitsLE d.natAbs).reverse := by
          rw [hS, jsToString2, if_neg (by omega), if_neg (by omega)]
        apply testBit_ge_binDigitsLE_length
        have : (binDigitsLE d.natAbs).length = S.length := by rw [hstr]; simp
        omega
      · rw [← hzero]
        exact Nat.zero_testBit j
    rw [ht]
    have hchar : jsCharAt (padStart S size '0')
        (((padStart S size '0').length : Int) - 1 - (j : Int)) = '0' := by
      rw [jsCharAt, if_pos (by rw [hPlen]; push_cast; omega)]
      have hidx : (((padStart S size '0').length : Int) - 1 - (j : Int)).toNat =
          size - 1 - j := by rw [hPlen]; push_cast; omega
      rw [hidx, padStart, List.getD_eq_getElem?_getD,
        List.getElem?_append_left (by simp; omega), List.getElem?_replicate,
        if_pos (by omega)]
      rfl
    rw [hchar]
    simp

/-! ### The bit-packing loops of `ITPRequest.insertData` and
`ITPResponse.encodeBitSection`.

Both source loops walk the target bit range from its least significant end
(`position + size - 1` down to `position`) while walking the binary string
from its last character backwards (`binaryIndex--`), setting the bit when the
character is `'1'` and clearing it otherwise. -/

def bitWriteLoop : List Nat → List Char → Nat → Int → Nat → List Nat
  | buf, _, _, _, 0 => buf
  | buf, s, pos, idx, count + 1 =>
    bitWriteLoop (setBufBit buf pos (jsCharAt s idx == '1')) s (pos - 1) (idx - 1) count

/-- `ITPRequest.insertData(buffer, data, position, size)`: writes the binary
string `data.toString(2).padStart(size, '0')` into bits
`[position, position + size)`, most significant first. -/
def insertData (buffer : List Nat) (data : Int) (position size : Nat) : List Nat :=
  let binaryStr := padStart (jsToString2 data) size '0'
  bitWriteLoop buffer binaryStr (position + size - 1) ((binaryStr.length : Int) - 1) size

/-- `ITPResponse.encodeBitSection(buffer, data, start, length)`: identical loop
but over the unpadded string `data.toString(2)`; characters left of the string
(read as `undefined`) clear the corresponding high bits. -/
def encodeBitSection (buffer : List Nat) (data : Int) (start len : Nat) : List Nat :=
  let binData := jsToString2 data
  bitWriteLoop buffer binData (start + len - 1) ((binData.length : Int) - 1) len

theorem bitWriteLoop_length : ∀ (count : Nat) (buf : List Nat) (s : List Char)
    (pos : Nat) (idx : Int), (bitWriteLoop buf s pos idx count).length = buf.length := by
  intro count
  induction count with
  | zero => intro buf s pos idx; rfl
  | succ c ih =>
    intro buf s pos idx
    rw [bitWriteLoop, ih, setBufBit_length]

theorem bitWriteLoop_frame : ∀ (count : Nat) (buf : List Nat) (s : List Char)
    (pos : Nat) (idx : Int) (q : Nat), (pos < q ∨ q + count ≤ pos) →
    getBufBit (bitWriteLoop buf s pos idx count) q = getBufBit buf q := by
  intro count
  induction count with
  | zero => intro buf s pos idx q _; rfl
  | succ c ih =>
    intro buf s pos idx q hq
    rw [bitWriteLoop, ih _ _ _ _ q (by omega), getBufBit_setBufBit_ne _ _ _ _ (by omega)]

theorem bitWriteLoop_getBufBit : ∀ (count : Nat) (buf : List Nat) (s : List Char)
    (pos : Nat) (idx : Int) (j : Nat), j < count → count ≤ pos + 1 →
    pos < 8 * buf.length →
    getBufBit (bitWriteLoop buf s pos idx count) (pos - j) =
      if jsCharAt s (idx - (j : Int)) == '1' then 1 else 0 := by
  intro count
  induction count with
  | zero => intro buf s pos idx j hj; omega
  | succ c ih =>
    intro buf s pos idx j hj hcnt hcap
    rw [bitWriteLoop]
    match j with
    | 0 =>
      rw [Nat.sub_zero, bitWriteLoop_frame c _ s (pos - 1) (idx - 1) pos (by omega)]
      rw [getBufBit_setBufBit_self _ _ _
        (by rw [Nat.div_lt_iff_lt_mul (by norm_num)]; omega)]
      norm_num
    | jp + 1 =>
      have h1 : pos - (jp + 1) = (pos - 1) - jp := by omega
      have h2 : idx - ((jp + 1 : Nat) : Int) = (idx - 1) - (jp : Int) := by push_cast; ring
      rw [h1, h2, ih _ s (pos - 1) (idx - 1) jp (by omega) (by omega)
        (by rw [setBufBit_length]; omega)]

theorem insertData_length (buf : List Nat) (d : Int) (position size : Nat) :
    (insertData buf d position size).length = buf.length := by
  unfold insertData
  rw [bitWriteLoop_length]

theorem encodeBitSection_length (buf : List Nat) (d : Int) (start len : Nat) :
    (encodeBitSection buf d start len).length = buf.length := by
  unfold encodeBitSection
  rw [bitWriteLoop_length]

theorem getBufBit_insertData_frame (buf : List Nat) (d : Int) (position size q : Nat)
    (hq : q < position ∨ position + size ≤ q) :
    getBufBit (insertData buf d position size) q = getBufBit buf q := by
  unfold insertData
  apply bitWriteLoop_frame
  omega

theorem getBufBit_encodeBitSection_frame (buf : List Nat) (d : Int) (start len q : Nat)
    (hq : q < start ∨ start + len ≤ q) :
    getBufBit (encodeBitSection buf d start len) q = getBufBit buf q := by
  unfold encodeBitSection
  apply bitWriteLoop_frame
  omega

/-- The bit of weight `2^j` of an `insertData`-written field is bit `j` of the
(nonnegative) data. -/
theorem getBufBit_insertData (buf : List Nat) (d : Int) (hd : 0 ≤ d)
    (position size j : Nat) (hj : j < size) (hcap : position + size ≤ 8 * buf.length) :
    getBufBit (insertData buf d position size) (position + size - 1 - j) =
      if d.natAbs.testBit j then 1 else 0 := by
  unfold insertData
  have hplen : size ≤ (padStart (jsToString2 d) size '0').length := by
    simp [padStart]
    omega
  have hstep : position + size - 1 - j = (position + size - 1) - j := by omega
  rw [hstep, bitWriteLoop_getBufBit size buf _ (position + size - 1) _ j hj (by omega)
    (by omega)]
  have hchar := jsCharAt_padStart d hd size j hj
  by_cases ht : d.natAbs.testBit j
  · rw [if_pos]
    · simp [ht]
    · rw [beq_iff_eq, hchar]
      exact ht
  · rw [if_neg]
    · simp [ht]
    · rw [beq_iff_eq, hchar]
      simpa using ht

/-- The bit of weight `2^j` of an `encodeBitSection`-written field is bit `j`
of the magnitude of the data (the sign character and positions left of the
string clear the bits the magnitude does not reach). -/
theorem getBufBit_encodeBitSection (buf : List Nat) (d : Int) (start len j : Nat)
    (hj : j < len) (hcap : start + len ≤ 8 * buf.length) :
    getBufBit (encodeBitSection buf d start len) (start + len - 1 - j) =
      if d.natAbs.testBit j then 1 else 0 := by
  unfold encodeBitSection
  have hstep : start + len - 1 - j = (start + len - 1) - j := by omega
  rw [hstep, bitWriteLoop_getBufBit len buf _ (start + len - 1) _ j hj (by omega) (by omega)]
  have hchar := jsCharAt_jsToString2 d j
  by_cases ht : d.natAbs.testBit j
  · rw [if_pos]
    · simp [ht]
    · rw [beq_iff_eq, hchar]
      exact ht
  · rw [if_neg]
    · simp [ht]
    · rw [beq_iff_eq, hchar]
      simpa using ht

/-! ### The bit-extraction loop shared by the server's `extractDataBits` and the
client's `extractBits`.

Both walk the field from its most significant bit and accumulate with
`value = (value << 1) | bit` — JavaScript signed 32-bit operations, so a
32-bit field with its top bit set comes out negative. -/

def extractLoop (packet : List Nat) : Nat → Int → Nat → Int
  | _, value, 0 => value
  | pos, value, len + 1 =>
    extractLoop packet (pos + 1)
      (jsOr32 (jsShl32 value 1) (((packet.getD (pos / 8) 0 >>> (7 - pos % 8)) &&& 1 : Nat) : Int))
      len

/-- Server `extractDataBits(packet, offset, len)`. -/
def extractDataBits (packet : List Nat) (offset len : Nat) : Int :=
  extractLoop packet offset 0 len

/-- Client `ImageClient.extractBits(packet, offset, length)` — the same loop,
duplicated in the client source. -/
def extractBits (packet : List Nat) (offset len : Nat) : Int :=
  extractLoop packet offset 0 len

/-- The pure value of the bit field `[pos, pos + len)` of a buffer, most
significant bit first, as a natural number. -/
def fieldVal (packet : List Nat) : Nat → Nat → Nat
  | _, 0 => 0
  | pos, len + 1 => getBufBit packet pos * 2 ^ len + fieldVal packet (pos + 1) len

theorem getBufBit_le_one (packet : List Nat) (pos : Nat) : getBufBit packet pos ≤ 1 :=
  Nat.and_le_right

theorem fieldVal_lt (packet : List Nat) : ∀ (len pos : Nat),
    fieldVal packet pos len < 2 ^ len := by
  intro len
  induction len with
  | zero => intro pos; rw [fieldVal]; norm_num
  | succ l ih =>
    intro pos
    have h1 := ih (pos + 1)
    have h2 := getBufBit_le_one packet pos
    rw [fieldVal, pow_succ]
    nlinarith

theorem fieldVal_congr (b1 b2 : List Nat) : ∀ (len pos : Nat),
    (∀ i, i < len → getBufBit b1 (pos + i) = getBufBit b2 (pos + i)) →
    fieldVal b1 pos len = fieldVal b2 pos len := by
  intro len
  induction len with
  | zero => intro pos _; rfl
  | succ l ih =>
    intro pos h
    rw [fieldVal, fieldVal, ih (pos + 1) (fun i hi => by
      have := h (i + 1) (by omega)
      rwa [show pos + (i + 1) = pos + 1 + i by ring] at this)]
    have := h 0 (by omega)
    rw [show pos + 0 = pos by ring] at this
    rw [this]

/-- If bits `pos + len - 1 - j` hold bit `j` of `n` for every `j < len`, the
field reads back as `n % 2^len`. -/
theorem fieldVal_of_bits (packet : List Nat) (n : Nat) : ∀ (len pos : Nat),
    (∀ j, j < len → getBufBit packet (pos + len - 1 - j) = if n.testBit j then 1 else 0) →
    fieldVal packet pos len = n % 2 ^ len := by
  intro len
  induction len with
  | zero => intro pos _; rw [fieldVal, pow_zero, Nat.mod_one]
  | succ l ih =>
    intro pos h
    rw [fieldVal, ih (pos + 1) (fun j hj => by
      have := h j (by omega)
      rwa [show pos + (l + 1) - 1 - j = pos + 1 + l - 1 - j by omega] at this)]
    have hhi := h l (by omega)
    rw [show pos + (l + 1) - 1 - l = pos by omega] at hhi
    rw [hhi, pow_succ, Nat.mod_mul, Nat.testBit_to_div_mod]
    by_cases hb : n / 2 ^ l % 2 = 1
    · rw [if_pos (by simpa using hb), hb]
      ring
    · have hb0 : n / 2 ^ l % 2 = 0 := (Nat.mod_two_eq_zero_or_one _).resolve_right hb
      rw [if_neg (by simpa using hb), hb0]
      ring

theorem nat_lor_even (m b : Nat) (hm : m % 2 = 0) (hb : b ≤ 1) : m ||| b = m + b := by
  match b, hb with
  | 0, _ => simp
  | 1, _ =>
    apply Nat.eq_of_testBit_eq
    intro i
    match i with
    | 0 =>
      rw [Nat.testBit_lor, Nat.testBit_zero, Nat.testBit_zero, Nat.testBit_zero]
      simp [hm, Nat.add_mod]
    | i + 1 =>
      rw [Nat.testBit_lor, Nat.testBit_succ, Nat.testBit_succ, Nat.testBit_succ]
      have h2 : (m + 1) / 2 = m / 2 := by omega
      have h3 : (1 : Nat) / 2 = 0 := by norm_num
      rw [h2, h3]
      simp [Nat.zero_testBit]

theorem toUint32_natCast (n : Nat) : toUint32 (n : Int) = n % 4294967296 := by
  unfold toUint32
  omega

/-- One step of the extraction loop: JavaScript `(value << 1) | bit` acting on
a 32-bit value is doubling plus the bit, reduced back into signed 32 bits. -/
theorem extract_step (v : Int) (b : Nat) (hb : b ≤ 1) :
    jsOr32 (jsShl32 (toInt32 v) 1) (b : Int) = toInt32 (2 * v + (b : Int)) := by
  have hu1 : toUint32 (1 : Int) = 1 := toUint32_ofNat 1 (by norm_num)
  have hshl : jsShl32 (toInt32 v) 1 = toInt32 ((2 * toUint32 v : Nat) : Int) := by
    unfold jsShl32
    rw [hu1, toUint32_toInt32]
    norm_num [Nat.shiftLeft_eq, Nat.mul_comm]
  rw [hshl]
  unfold jsOr32
  rw [toUint32_toInt32, toUint32_natCast, toUint32_ofNat b (by omega)]
  have heven : (2 * toUint32 v) % 4294967296 % 2 = 0 := by
    rw [Nat.mod_mod_of_dvd _ (by norm_num)]
    omega
  rw [nat_lor_even _ b heven hb]
  apply toInt32_congr
  have hvu := emod_toUint32 v
  push_cast
  omega

/-- The extraction loop computes the field value, reduced to a signed 32-bit
integer at every step. -/
theorem extractLoop_eq (packet : List Nat) : ∀ (len pos : Nat) (v : Int),
    extractLoop packet pos (toInt32 v) len =
      toInt32 (v * 2 ^ len + (fieldVal packet pos len : Int)) := by
  intro len
  induction len with
  | zero =>
    intro pos v
    rw [extractLoop, fieldVal]
    norm_num
  | succ l ih =>
    intro pos v
    rw [extractLoop,
      show ((packet.getD (pos / 8) 0 >>> (7 - pos % 8)) &&& 1 : Nat) = getBufBit packet pos
        from rfl,
      extract_step v (getBufBit packet pos) (getBufBit_le_one packet pos),
      ih (pos + 1) (2 * v + (getBufBit packet pos : Int)), fieldVal]
  
    congr 1
    push_cast
    ring

/-- `extractDataBits` reads the field value, reinterpreted as a signed 32-bit
integer (negative exactly when a 32-bit-wide field has its top bit set). -/
theorem extractDataBits_eq (packet : List Nat) (offset len : Nat) :
    extractDataBits packet offset len = toInt32 ((fieldVal packet offset len : Int)) := by
  unfold extractDataBits
  have h0 : (0 : Int) = toInt32 0 := by norm_num [toInt32, toUint32]
  rw [h0, extractLoop_eq]
  norm_num

theorem extractBits_eq (packet : List Nat) (offset len : Nat) :
    extractBits packet offset len = toInt32 ((fieldVal packet offset len : Int)) :=
  extractDataBits_eq packet offset len

/-- For fields up to 31 bits wide (and 32-bit fields whose value stays below
`2^31`) the extraction is the plain field value. -/
theorem extractDataBits_eq_of_lt (packet : List Nat) (offset len : Nat)
    (h : fieldVal packet offset len < 2147483648) :
    extractDataBits packet offset len = (fieldVal packet offset len : Int) := by
  rw [extractDataBits_eq]
  exact toInt32_ofNat _ h

/-- Writing a nonnegative value with `insertData` and reading the same range
back as a plain field value yields the value reduced mod `2^size`. -/
theorem fieldVal_insertData (buf : List Nat) (d : Int) (hd : 0 ≤ d)
    (position size : Nat) (hcap : position + size ≤ 8 * buf.length) :
    fieldVal (insertData buf d position size) position size = d.natAbs % 2 ^ size := by
  apply fieldVal_of_bits
  intro j hj
  exact getBufBit_insertData buf d hd position size j hj hcap

/-- Writing any value with `encodeBitSection` and reading the same range back
yields the magnitude reduced mod `2^len`. -/
theorem fieldVal_encodeBitSection (buf : List Nat) (d : Int) (start len : Nat)
    (hcap : start + len ≤ 8 * buf.length) :
    fieldVal (encodeBitSection buf d start len) start len = d.natAbs % 2 ^ len := by
  apply fieldVal_of_bits
  intro j hj
  exact getBufBit_encodeBitSection buf d start len j hj hcap

theorem fieldVal_insertData_frame (buf : List Nat) (d : Int)
    (position size q m : Nat) (hq : position + size ≤ q ∨ q + m ≤ position) :
    fieldVal (insertData buf d position size) q m = fieldVal buf q m := by
  apply fieldVal_congr
  intro i hi
  apply getBufBit_insertData_frame
  omega

theorem fieldVal_encodeBitSection_frame (buf : List Nat) (d : Int)
    (start len q m : Nat) (hq : start + len ≤ q ∨ q + m ≤ start) :
    fieldVal (encodeBitSection buf d start len) q m = fieldVal buf q m := by
  apply fieldVal_congr
  intro i hi
  apply getBufBit_encodeBitSection_frame
  omega

/-! ### Client request codec (`Client/ITPRequest.js`) -/

/-- The do-while loop of `toByteArr`: push `code & 0xFF`, shift right by 8,
repeat while nonzero (fuel-indexed helper; the fuel `code` always suffices). -/
def charBytesLEAux : Nat → Nat → List Nat
  | 0, code => [code &&& 255]
  | fuel + 1, code =>
    (code &&& 255) :: (if code >>> 8 = 0 then [] else charBytesLEAux fuel (code >>> 8))

/-- The bytes of one character code, least significant first (reversed before
being appended, as in the source). -/
def charBytesLE (code : Nat) : List Nat := charBytesLEAux code code

/-- `toByteArr(str)`: each character code decomposed into bytes, most
significant byte first. -/
def toByteArr : List Nat → List Nat
  | [] => []
  | c :: rest => (charBytesLE c).reverse ++ toByteArr rest

/-- `calculateNameLength(name)`. -/
def calculateNameLength (name : List Nat) : Nat := (toByteArr name).length

/-- The module-level `packetDetails` object of `ITPRequest.js`. -/
structure PacketDetails where
  version : Int
  actionType : Int
  timeMark : Int
  imgType : Int
  imgName : List Nat
  nameLength : Nat

/-- `initialize(version, actionType, timeMark, imgType, imgName)` (exported as
`init`): fills `packetDetails`, computing `nameLength` via
`calculateNameLength`. -/
def initializeDetails (version actionType timeMark imgType : Int)
    (imgName : List Nat) : PacketDetails :=
  { version := version, actionType := actionType, timeMark := timeMark,
    imgType := imgType, imgName := imgName,
    nameLength := calculateNameLength imgName }

/-- UTF-8 encoding of one BMP code point, as used by `Buffer.write`'s default
encoding (surrogate halves do not occur in this development). -/
def utf8Bytes (c : Nat) : List Nat :=
  if c < 128 then [c]
  else if c < 2048 then [192 + c / 64, 128 + c % 64]
  else [224 + c / 4096, 128 + c / 64 % 64, 128 + c % 64]

def writeBytes : List Nat → List Nat → Nat → List Nat
  | buf, [], _ => buf
  | buf, b :: rest, offset => writeBytes (buf.set offset b) rest (offset + 1)

/-- Node `buf.write(string, offset)` with the default utf8 encoding: encodes
characters one at a time and writes them while they fit in the buffer;
a partially fitting character is not written at all. -/
def bufferWrite : List Nat → List Nat → Nat → List Nat
  | buf, [], _ => buf
  | buf, c :: rest, offset =>
    if offset + (utf8Bytes c).length ≤ buf.length then
      bufferWrite (writeBytes buf (utf8Bytes c) offset) rest (offset + (utf8Bytes c).length)
    else buf

/-- `getPacket()` (exported as `getBytePacket`): allocate
`12 + nameLength` zeroed bytes, insert the five header fields, then
`bufferPacket.write(imgName, 12)`. -/
def getPacket (d : PacketDetails) : List Nat :=
  let b0 := List.replicate (12 + d.nameLength) 0
  let b1 := insertData b0 d.version 0 4
  let b2 := insertData b1 d.actionType 30 2
  let b3 := insertData b2 d.timeMark 32 32
  let b4 := insertData b3 d.imgType 64 4
  let b5 := insertData b4 (d.nameLength : Int) 68 28
  bufferWrite b5 d.imgName 12

/-! ### Server request decoding (`server.js`, unnamed part_001) -/

/-- JavaScript `buf.slice(s, e)` for the nonnegative indices the source uses:
elements `[s, e)`, clamped to the buffer. -/
def jsSlice (l : List Nat) (s e : Int) : List Nat := (l.take e.toNat).drop s.toNat

/-- Node `Buffer#toString()` (utf8): decode byte sequences back to character
codes, with the replacement character 65533 for malformed sequences
(fuel-indexed helper so the recursion is structural; the fuel is the length of
the byte list, which always suffices). -/
def utf8DecAux : Nat → List Nat → List Nat
  | 0, _ => []
  | _ + 1, [] => []
  | fuel + 1, b :: rest =>
      if b < 128 then b :: utf8DecAux fuel rest
      else if 192 ≤ b ∧ b < 224 then
        match rest with
        | c :: rest2 =>
          if 128 ≤ c ∧ c < 192 then ((b - 192) * 64 + (c - 128)) :: utf8DecAux fuel rest2
          else 65533 :: utf8DecAux fuel rest
        | [] => [65533]
      else if 224 ≤ b ∧ b < 240 then
        match rest with
        | c :: e :: rest3 =>
          if (128 ≤ c ∧ c < 192) ∧ (128 ≤ e ∧ e < 192) then
            ((b - 224) * 4096 + (c - 128) * 64 + (e - 128)) :: utf8DecAux fuel rest3
          else 65533 :: utf8DecAux fuel rest
        | _ => [65533]
      else 65533 :: utf8DecAux fuel rest

def utf8Dec (l : List Nat) : List Nat := utf8DecAux l.length l

/-- `getFileName(data)`: read the 28-bit `nameLength` field and slice that many
bytes from offset 12 (the slice clamps at the end of the buffer — no length
check, no error). -/
def getFileName (data : List Nat) : List Nat :=
  let nameSize := extractDataBits data 68 28
  utf8Dec (jsSlice data 12 (12 + nameSize))

/-- The record returned by `extractDetails` — note there is no `actionType`
field: the server never decodes bits 30..31. -/
structure RequestDetails where
  version : Int
  timestamp : Int
  imageType : Int
  fileName : List Nat

/-- `extractDetails(data)`. -/
def extractDetails (data : List Nat) : RequestDetails :=
  { version := extractDataBits data 0 4
    timestamp := extractDataBits data 32 32
    imageType := extractDataBits data 64 4
    fileName := getFileName data }

/-- `mapTypeToExtension(type)` — the `switch` over the closed enumeration. -/
def mapTypeToExtension (t : Int) : String :=
  if t = 1 then "PNG"
  else if t = 2 then "BMP"
  else if t = 3 then "TIFF"
  else if t = 4 then "JPEG"
  else if t = 5 then "GIF"
  else if t = 15 then "RAW"
  else "unknown"

/-- The resource path `pathResolver.join(__dirname, 'images', fileName.ext)`,
abstracted to the pair (file name, extension) under the fixed images root. -/
structure ResourcePath where
  name : List Nat
  ext : String

/-- `constructFilePath(fileName, imageType)`. -/
def constructFilePath (fileName : List Nat) (imageType : Int) : ResourcePath :=
  { name := fileName, ext := mapTypeToExtension imageType }

/-! ### Response codec (`Server/ITPResponse.js`) and singleton
(`Server/Singleton.js`) -/

/-- The module-level `responseDetails` object of `ITPResponse.js`, as set by
`configure` (exported as `init`). -/
structure ResponseDetails where
  sequence : Int
  versionNum : Int
  type : Int
  time : Int
  size : Int

/-- `assemblePacket()` (exported as `getPacket`): 12 zeroed bytes with the five
response header fields encoded by `encodeBitSection`. -/
def assemblePacket (r : ResponseDetails) : List Nat :=
  let h0 := List.replicate 12 0
  let h1 := encodeBitSection h0 r.versionNum 0 4
  let h2 := encodeBitSection h1 r.type 4 2
  let h3 := encodeBitSection h2 r.sequence 6 26
  let h4 := encodeBitSection h3 r.time 32 32
  encodeBitSection h4 r.size 64 32

/-- `Singleton.incrementSequence`: `sequenceNum = (sequenceNum % 999) + 1`,
modelled with the state passed explicitly (`getSequenceNumber` returns the new
state). -/
def incrementSequence (sequenceNum : Nat) : Nat := (sequenceNum % 999) + 1

/-- `Singleton.incrementTimestamp`:
`timeMark = (timeMark + 1) & ((1 << 32) - 1)` under JavaScript 32-bit operator
semantics (`1 << 32` is `1`, so the mask is `0`). -/
def incrementTimestamp (timeMark : Int) : Int :=
  jsAnd32 (timeMark + 1) (jsShl32 1 32 - 1)

/-- The state of the sequence counter after `n` calls of
`getSequenceNumber()`; call `n` (1-based) returns `seqCall s n`. -/
def seqCall (s : Nat) : Nat → Nat
  | 0 => s
  | n + 1 => incrementSequence (seqCall s n)

/-! ### Server session (`server.js`, unnamed part_001) -/

/-- `preparePacket(imageData, version, timestamp, responseType)`: draws the
next sequence number from the singleton, sets `size` to the payload length (0
for `null`), configures the response module, and concatenates header and
payload. Returns the packet together with the new counter state. -/
def preparePacket (imageData : Option (List Nat)) (version timestamp responseType : Int)
    (seqState : Nat) : List Nat × Nat :=
  let sequenceNumber := incrementSequence seqState
  let size : Nat := match imageData with | some d => d.length | none => 0
  let header := assemblePacket
    { sequence := (sequenceNumber : Int), versionNum := version,
      type := responseType, time := timestamp, size := (size : Int) }
  (match imageData with | some d => header ++ d | none => header, sequenceNumber)

/-- `sendImageResponse(sock, filePath, details)` with the file contents passed
in place of the `readFileSync` result. -/
def sendImageResponse (imageData : List Nat) (details : RequestDetails)
    (seqState : Nat) : List Nat × Nat :=
  preparePacket (some imageData) details.version details.timestamp 1 seqState

/-- `sendErrorResponse(sock, details)`. -/
def sendErrorResponse (details : RequestDetails) (seqState : Nat) : List Nat × Nat :=
  preparePacket none details.version details.timestamp 2 seqState

/-- Observable effects of one server `data` event: the packets written to the
socket, whether `sock.end()` was called, and the sequence-counter state. -/
structure ServerEffects where
  sent : List (List Nat)
  closed : Bool
  seqState : Nat

/-- `handleData(sock, incomingData, originalSequenceNumber)`: decode, resolve
the resource, answer with an image or error response, close the socket. The
file system is abstracted as an existence predicate and a contents map. -/
def handleData (fsExists : ResourcePath → Bool) (fileContents : ResourcePath → List Nat)
    (incomingData : List Nat) (seqState : Nat) : ServerEffects :=
  let details := extractDetails incomingData
  let filePath := constructFilePath details.fileName details.imageType
  if fsExists filePath then
    let r := sendImageResponse (fileContents filePath) details seqState
    { sent := [r.1], closed := true, seqState := r.2 }
  else
    let r := sendErrorResponse details seqState
    { sent := [r.1], closed := true, seqState := r.2 }

/-- Result of `manageClient(sock)` followed by one `data` event: the sequence
number drawn at connection time (used only for logging) and the effects of
handling the request. -/
structure ExchangeResult where
  logged : Nat
  effects : ServerEffects

/-- `manageClient(sock)` plus one incoming request: draws
`getSequenceNumber()` for the connection log, then handles the data. -/
def manageClient (fsExists : ResourcePath → Bool) (fileContents : ResourcePath → List Nat)
    (incomingData : List Nat) (seqState : Nat) : ExchangeResult :=
  let sequenceNumber := incrementSequence seqState
  { logged := sequenceNumber,
    effects := handleData fsExists fileContents incomingData sequenceNumber }

/-! ### Client session (`client.js`, unnamed part_000) -/

structure ClientHeaderDetails where
  version : Int
  type : Int
  sequence : Int
  timestamp : Int

/-- `ImageClient.processHeader(header)` — the decoded response header. -/
def processHeader (header : List Nat) : ClientHeaderDetails :=
  { version := extractBits header 0 4
    type := extractBits header 4 2
    sequence := extractBits header 6 26
    timestamp := extractBits header 32 32 }

/-- `ImageClient.saveImage(imageData)`: `fs.writeFileSync(this.imageName,
imageData)`, modelled as the written (name, contents) pair. -/
def saveImage (imageName imageData : List Nat) : List Nat × List Nat :=
  (imageName, imageData)

/-- Observable effects of the client's `data` handler. -/
structure ClientEffects where
  details : ClientHeaderDetails
  savedFiles : List (List Nat × List Nat)
  viewerOpened : List (List Nat)
  ended : Bool

/-- `ImageClient.handleResponse()`'s `data` callback: process the header,
unconditionally `saveImage(data.slice(12))`, unconditionally invoke the
viewer on `this.imageName`, and end the connection — there is no check of the
response `type` anywhere on this path. -/
def handleResponse (imageName data : List Nat) : ClientEffects :=
  { details := processHeader (jsSlice data 0 12)
    savedFiles := [saveImage imageName (jsSlice data 12 (data.length : Int))]
    viewerOpened := [imageName]
    ended := true }

/-! ### Auxiliary lemmas about the modelled platform functions -/

theorem writeBytes_length : ∀ (bytes buf : List Nat) (offset : Nat),
    (writeBytes buf bytes offset).length = buf.length := by
  intro bytes
  induction bytes with
  | nil => intro buf offset; rfl
  | cons b rest ih =>
    intro buf offset
    rw [writeBytes, ih, List.length_set]

theorem bufferWrite_length : ∀ (str buf : List Nat) (offset : Nat),
    (bufferWrite buf str offset).length = buf.length := by
  intro str
  induction str with
  | nil => intro buf offset; rfl
  | cons c rest ih =>
    intro buf offset
    rw [bufferWrite]
    by_cases h : offset + (utf8Bytes c).length ≤ buf.length
    · rw [if_pos h, ih, writeBytes_length]
    · rw [if_neg h]

theorem getD_writeBytes_lt : ∀ (bytes buf : List Nat) (offset i : Nat), i < offset →
    (writeBytes buf bytes offset).getD i 0 = buf.getD i 0 := by
  intro bytes
  induction bytes with
  | nil => intro buf offset i _; rfl
  | cons b rest ih =>
    intro buf offset i hi
    rw [writeBytes, ih _ _ _ (by omega), getD_set_ne _ _ _ _ (by omega)]

theorem getD_bufferWrite_lt : ∀ (str buf : List Nat) (offset i : Nat), i < offset →
    (bufferWrite buf str offset).getD i 0 = buf.getD i 0 := by
  intro str
  induction str with
  | nil => intro buf offset i _; rfl
  | cons c rest ih =>
    intro buf offset i hi
    rw [bufferWrite]
    by_cases h : offset + (utf8Bytes c).length ≤ buf.length
    · rw [if_pos h, ih _ _ _ (by omega), getD_writeBytes_lt _ _ _ _ (by omega)]
    · rw [if_neg h]

theorem getBufBit_bufferWrite_lt (str buf : List Nat) (offset pos : Nat)
    (h : pos < 8 * offset) :
    getBufBit (bufferWrite buf str offset) pos = getBufBit buf pos := by
  unfold getBufBit
  rw [getD_bufferWrite_lt _ _ _ _ (by omega)]

theorem fieldVal_bufferWrite (str buf : List Nat) (offset q m : Nat)
    (h : q + m ≤ 8 * offset) :
    fieldVal (bufferWrite buf str offset) q m = fieldVal buf q m := by
  apply fieldVal_congr
  intro i hi
  apply getBufBit_bufferWrite_lt
  omega

theorem utf8Bytes_ascii (c : Nat) (h : c < 128) : utf8Bytes c = [c] := by
  rw [utf8Bytes, if_pos h]

/-- Writing an all-ASCII string that exactly fills the rest of the buffer puts
its character codes, one byte each, at the tail of the buffer. -/
theorem bufferWrite_ascii_drop : ∀ (str buf : List Nat) (offset : Nat),
    (∀ c ∈ str, c < 128) → buf.length = offset + str.length →
    (bufferWrite buf str offset).drop offset = str := by
  intro str
  induction str with
  | nil =>
    intro buf offset _ hlen
    rw [show bufferWrite buf [] offset = buf from rfl]
    simp only [List.length_nil] at hlen
    exact List.drop_eq_nil_of_le (by omega)
  | cons c rest ih =>
    intro buf offset hascii hlen
    have hc : c < 128 := hascii c (by simp)
    rw [bufferWrite, utf8Bytes_ascii c hc]
    simp only [List.length_cons, List.length_nil]
    rw [if_pos (by simp at hlen; omega)]
    have hwb : writeBytes buf [c] offset = buf.set offset c := rfl
    rw [hwb]
    set B := bufferWrite (buf.set offset c) rest (offset + 1) with hB
    have hBlen : B.length = offset + 1 + rest.length := by
      rw [hB, bufferWrite_length, List.length_set]
      simp at hlen
      omega
    have hofs : offset < B.length := by omega
    rw [List.drop_eq_getElem_cons hofs]
    have hget : B[offset] = c := by
      have h1 : B[offset] = B.getD offset 0 := by
        rw [List.getD_eq_getElem?_getD, List.getElem?_eq_getElem hofs]
        rfl
      rw [h1, hB, getD_bufferWrite_lt _ _ _ _ (by omega),
        getD_set_self _ _ _ (by simp at hlen; omega)]
    rw [hget, ih (buf.set offset c) (offset + 1)
      (fun x hx => hascii x (by simp [hx])) (by rw [List.length_set]; simp at hlen; omega)]

theorem utf8DecAux_ascii : ∀ (fuel : Nat) (bs : List Nat), bs.length ≤ fuel →
    (∀ b ∈ bs, b < 128) → utf8DecAux fuel bs = bs := by
  intro fuel
  induction fuel with
  | zero =>
    intro bs h1 _
    cases bs with
    | nil => rfl
    | cons b t => simp at h1
  | succ f ih =>
    intro bs h1 h2
    cases bs with
    | nil => rfl
    | cons b t =>
      have hb : b < 128 := h2 b (by simp)
      simp only [utf8DecAux, if_pos hb]
      rw [ih t (by simp at h1; omega) (fun x hx => h2 x (by simp [hx]))]

theorem utf8Dec_ascii (bs : List Nat) (h : ∀ b ∈ bs, b < 128) : utf8Dec bs = bs :=
  utf8DecAux_ascii bs.length bs (le_refl _) h

theorem charBytesLE_of_lt (c : Nat) (h : c < 256) : charBytesLE c = [c] := by
  unfold charBytesLE
  match c with
  | 0 => decide
  | m + 1 =>
    rw [charBytesLEAux]
    have h8 : (m + 1) >>> 8 = 0 := by
      rw [Nat.shiftRight_eq_div_pow]
      exact Nat.div_eq_of_lt (by norm_num; omega)
    have hand : (m + 1) &&& 255 = m + 1 := by
      have h255 := Nat.and_pow_two_sub_one_eq_mod (m + 1) 8
      norm_num at h255
      omega
    rw [if_pos h8, hand]

theorem toByteArr_ascii : ∀ (name : List Nat), (∀ c ∈ name, c < 128) →
    toByteArr name = name := by
  intro name
  induction name with
  | nil => intro _; rfl
  | cons c rest ih =>
    intro h
    rw [toByteArr, charBytesLE_of_lt c (by have := h c (by simp); omega),
      ih (fun x hx => h x (by simp [hx]))]
    rfl

theorem calculateNameLength_ascii (name : List Nat) (h : ∀ c ∈ name, c < 128) :
    calculateNameLength name = name.length := by
  rw [calculateNameLength, toByteArr_ascii name h]

theorem getBufBit_append_left (l1 l2 : List Nat) (pos : Nat) (h : pos < 8 * l1.length) :
    getBufBit (l1 ++ l2) pos = getBufBit l1 pos := by
  unfold getBufBit
  rw [List.getD_append _ _ _ _ (by omega)]

theorem fieldVal_append_left (l1 l2 : List Nat) (pos len : Nat)
    (h : pos + len ≤ 8 * l1.length) :
    fieldVal (l1 ++ l2) pos len = fieldVal l1 pos len := by
  apply fieldVal_congr
  intro i hi
  apply getBufBit_append_left
  omega

theorem getBufBit_take (l : List Nat) (n pos : Nat) (h : pos < 8 * n) :
    getBufBit (l.take n) pos = getBufBit l pos := by
  unfold getBufBit
  rw [List.getD_eq_getElem?_getD, List.getD_eq_getElem?_getD, List.getElem?_take]
  rw [if_pos (by omega)]

theorem fieldVal_take (l : List Nat) (n pos len : Nat) (h : pos + len ≤ 8 * n) :
    fieldVal (l.take n) pos len = fieldVal l pos len := by
  apply fieldVal_congr
  intro i hi
  apply getBufBit_take
  omega

/-! ### Field-level facts about the encoded request and response packets -/

theorem getPacket_length (d : PacketDetails) :
    (getPacket d).length = 12 + d.nameLength := by
  simp only [getPacket]
  rw [bufferWrite_length, insertData_length, insertData_length, insertData_length,
    insertData_length, insertData_length, List.length_replicate]

theorem fieldVal_getPacket_version (d : PacketDetails) (h : 0 ≤ d.version) :
    fieldVal (getPacket d) 0 4 = d.version.natAbs % 16 := by
  simp only [getPacket]
  rw [fieldVal_bufferWrite _ _ _ _ _ (by omega),
    fieldVal_insertData_frame _ _ _ _ _ _ (Or.inr (by omega)),
    fieldVal_insertData_frame _ _ _ _ _ _ (Or.inr (by omega)),
    fieldVal_insertData_frame _ _ _ _ _ _ (Or.inr (by omega)),
    fieldVal_insertData_frame _ _ _ _ _ _ (Or.inr (by omega)),
    fieldVal_insertData _ _ h _ _ (by rw [List.length_replicate]; omega)]
  norm_num

theorem fieldVal_getPacket_timeMark (d : PacketDetails) (h : 0 ≤ d.timeMark) :
    fieldVal (getPacket d) 32 32 = d.timeMark.natAbs % 4294967296 := by
  simp only [getPacket]
  rw [fieldVal_bufferWrite _ _ _ _ _ (by omega),
    fieldVal_insertData_frame _ _ _ _ _ _ (Or.inr (by omega)),
    fieldVal_insertData_frame _ _ _ _ _ _ (Or.inr (by omega)),
    fieldVal_insertData _ _ h _ _
      (by rw [insertData_length, insertData_length, List.length_replicate]; omega)]
  norm_num

theorem fieldVal_getPacket_imgType (d : PacketDetails) (h : 0 ≤ d.imgType) :
    fieldVal (getPacket d) 64 4 = d.imgType.natAbs % 16 := by
  simp only [getPacket]
  rw [fieldVal_bufferWrite _ _ _ _ _ (by omega),
    fieldVal_insertData_frame _ _ _ _ _ _ (Or.inr (by omega)),
    fieldVal_insertData _ _ h _ _
      (by rw [insertData_length, insertData_length, insertData_length,
        List.length_replicate]; omega)]
  norm_num

theorem fieldVal_getPacket_nameLength (d : PacketDetails) :
    fieldVal (getPacket d) 68 28 = d.nameLength % 268435456 := by
  simp only [getPacket]
  rw [fieldVal_bufferWrite _ _ _ _ _ (by omega),
    fieldVal_insertData _ _ (by positivity) _ _
      (by rw [insertData_length, insertData_length, insertData_length, insertData_length,
        List.length_replicate]; omega)]
  norm_num

/-- The bytes after the 12-byte header of an encoded request with an all-ASCII
name are exactly the character codes of the name: the five header inserts only
touch bits `0..95` and `bufferWrite` fills bytes `12..` one byte per ASCII
character. -/
theorem getPacket_drop_ascii (d : PacketDetails)
    (hascii : ∀ c ∈ d.imgName, c < 128) (hlen : d.nameLength = d.imgName.length) :
    (getPacket d).drop 12 = d.imgName := by
  simp only [getPacket]
  apply bufferWrite_ascii_drop _ _ _ hascii
  rw [insertData_length, insertData_length, insertData_length, insertData_length,
    insertData_length, List.length_replicate, hlen]

theorem assemblePacket_length (r : ResponseDetails) : (assemblePacket r).length = 12 := by
  simp only [assemblePacket]
  rw [encodeBitSection_length, encodeBitSection_length, encodeBitSection_length,
    encodeBitSection_length, encodeBitSection_length, List.length_replicate]

theorem fieldVal_assemblePacket_version (r : ResponseDetails) :
    fieldVal (assemblePacket r) 0 4 = r.versionNum.natAbs % 16 := by
  simp only [assemblePacket]
  rw [fieldVal_encodeBitSection_frame _ _ _ _ _ _ (Or.inr (by omega)),
    fieldVal_encodeBitSection_frame _ _ _ _ _ _ (Or.inr (by omega)),
    fieldVal_encodeBitSection_frame _ _ _ _ _ _ (Or.inr (by omega)),
    fieldVal_encodeBitSection_frame _ _ _ _ _ _ (Or.inr (by omega)),
    fieldVal_encodeBitSection _ _ _ _ (by rw [List.length_replicate]; omega)]
  norm_num

theorem fieldVal_assemblePacket_type (r : ResponseDetails) :
    fieldVal (assemblePacket r) 4 2 = r.type.natAbs % 4 := by
  simp only [assemblePacket]
  rw [fieldVal_encodeBitSection_frame _ _ _ _ _ _ (Or.inr (by omega)),
    fieldVal_encodeBitSection_frame _ _ _ _ _ _ (Or.inr (by omega)),
    fieldVal_encodeBitSection_frame _ _ _ _ _ _ (Or.inr (by omega)),
    fieldVal_encodeBitSection _ _ _ _
      (by rw [encodeBitSection_length, List.length_replicate]; omega)]
  norm_num

theorem fieldVal_assemblePacket_sequence (r : ResponseDetails) :
    fieldVal (assemblePacket r) 6 26 = r.sequence.natAbs % 67108864 := by
  simp only [assemblePacket]
  rw [fieldVal_encodeBitSection_frame _ _ _ _ _ _ (Or.inr (by omega)),
    fieldVal_encodeBitSection_frame _ _ _ _ _ _ (Or.inr (by omega)),
    fieldVal_encodeBitSection _ _ _ _
      (by rw [encodeBitSection_length, encodeBitSection_length,
        List.length_replicate]; omega)]
  norm_num

theorem fieldVal_assemblePacket_time (r : ResponseDetails) :
    fieldVal (assemblePacket r) 32 32 = r.time.natAbs % 4294967296 := by
  simp only [assemblePacket]
  rw [fieldVal_encodeBitSection_frame _ _ _ _ _ _ (Or.inr (by omega)),
    fieldVal_encodeBitSection _ _ _ _
      (by rw [encodeBitSection_length, encodeBitSection_length, encodeBitSection_length,
        List.length_replicate]; omega)]
  norm_num

theorem fieldVal_assemblePacket_size (r : ResponseDetails) :
    fieldVal (assemblePacket r) 64 32 = r.size.natAbs % 4294967296 := by
  simp only [assemblePacket]
  rw [fieldVal_encodeBitSection _ _ _ _
    (by rw [encodeBitSection_length, encodeBitSection_length, encodeBitSection_length,
      encodeBitSection_length, List.length_replicate])]
  norm_num

/-! ### Behaviour of the sequence counter and of `handleData` -/

theorem incrementSequence_bounds (s : Nat) :
    1 ≤ incrementSequence s ∧ incrementSequence s ≤ 999 := by
  unfold incrementSequence
  omega

/-- Closed form of the counter after `k` calls from a valid seed. -/
theorem seqCall_closed (s : Nat) (h1 : 1 ≤ s) (h2 : s ≤ 999) :
    ∀ k, seqCall s k = (s - 1 + k) % 999 + 1 := by
  intro k
  induction k with
  | zero =>
    rw [seqCall]
    omega
  | succ n ih =>
    rw [seqCall, ih, incrementSequence]
    omega

theorem preparePacket_some_fst (d : List Nat) (version timestamp rt : Int) (s : Nat) :
    (preparePacket (some d) version timestamp rt s).1 =
      assemblePacket
        { sequence := ((incrementSequence s : Nat) : Int), versionNum := version,
          type := rt, time := timestamp, size := (d.length : Int) } ++ d := by
  simp only [preparePacket]

theorem preparePacket_none_fst (version timestamp rt : Int) (s : Nat) :
    (preparePacket none version timestamp rt s).1 =
      assemblePacket
        { sequence := ((incrementSequence s : Nat) : Int), versionNum := version,
          type := rt, time := timestamp, size := ((0 : Nat) : Int) } := by
  simp only [preparePacket]

theorem preparePacket_snd (imageData : Option (List Nat)) (version timestamp rt : Int)
    (s : Nat) : (preparePacket imageData version timestamp rt s).2 = incrementSequence s := by
  simp only [preparePacket]

/-- Whatever the resolution outcome, a `data` event makes the server draw one
fresh sequence number in `preparePacket`, place it in bits 6..31 of the single
response it writes, and leave the counter at that value. -/
theorem handleData_sequence (fsE : ResourcePath → Bool) (fC : ResourcePath → List Nat)
    (data : List Nat) (s : Nat) :
    (handleData fsE fC data s).seqState = incrementSequence s ∧
    (handleData fsE fC data s).sent.length = 1 ∧
    extractBits ((handleData fsE fC data s).sent.getD 0 []) 6 26 =
      ((incrementSequence s : Nat) : Int) := by
  have hbnd := incrementSequence_bounds s
  have hseq : ((incrementSequence s : Nat) : Int).natAbs % 67108864 = incrementSequence s := by
    rw [Int.natAbs_ofNat]
    omega
  have hto : toInt32 ((incrementSequence s : Nat) : Int) = ((incrementSequence s : Nat) : Int) :=
    toInt32_ofNat _ (by omega)
  by_cases hfs : fsE (constructFilePath (extractDetails data).fileName
      (extractDetails data).imageType) = true
  · simp only [handleData, hfs, if_true]
    refine ⟨preparePacket_snd _ _ _ _ _, rfl, ?_⟩
    simp only [sendImageResponse, List.getD_cons_zero, preparePacket_some_fst]
    rw [extractBits_eq,
      fieldVal_append_left _ _ _ _ (by rw [assemblePacket_length]; norm_num),
      fieldVal_assemblePacket_sequence]
    simp only [hseq]
    exact hto
  · simp only [handleData, hfs, Bool.false_eq_true, if_false]
    refine ⟨preparePacket_snd _ _ _ _ _, rfl, ?_⟩
    simp only [sendErrorResponse, List.getD_cons_zero, preparePacket_none_fst]
    rw [extractBits_eq, fieldVal_assemblePacket_sequence]
    simp only [hseq]
    exact hto

/-! ### The claims -/

set_option maxRecDepth 6000 in
/-- C1 counterexample: the round trip is not the identity on every valid tuple.
For the in-range tuple (version 1, actionType 0, timeMark 4294967295, imgType
1, fileName "img"), the server-side decoder returns timestamp `-1` (the signed
32-bit reading produced by `(value << 1) | bit`), not the original
4294967295; moreover `extractDetails` has no `actionType` component at all. -/
theorem C1_round_trip_counterexample :
    (extractDetails (getPacket (initializeDetails 1 0 4294967295 1
      [105, 109, 103]))).timestamp = -1 ∧ (-1 : Int) ≠ (4294967295 : Int) := by
  decide

/-- C1 (amended): for valid tuples whose timeMark is below `2^31` and whose
file name is ASCII, decoding the encoded request returns the original version,
timeMark, imgType and fileName; the decoded record carries no actionType
(the server never reads bits 30..31 and treats every request as a query). -/
theorem C1_round_trip_amended (version actionType timeMark imgType : Int)
    (name : List Nat)
    (h1 : 0 ≤ version) (h2 : version < 16)
    (h3 : 0 ≤ actionType) (h4 : actionType < 4)
    (h5 : 0 ≤ timeMark) (h6 : timeMark < 2147483648)
    (h7 : 0 ≤ imgType) (h8 : imgType < 16)
    (h9 : ∀ c ∈ name, c < 128) (h10 : name.length < 268435456) :
    extractDetails (getPacket (initializeDetails version actionType timeMark imgType name)) =
      { version := version, timestamp := timeMark, imageType := imgType,
        fileName := name } := by
  set d := initializeDetails version actionType timeMark imgType name with hd
  have hdv : d.version = version := rfl
  have hdt : d.timeMark = timeMark := rfl
  have hdi : d.imgType = imgType := rfl
  have hdl : d.nameLength = name.length := calculateNameLength_ascii name h9
  have hver : extractDataBits (getPacket d) 0 4 = version := by
    have hf : fieldVal (getPacket d) 0 4 = version.natAbs % 16 := by
      rw [fieldVal_getPacket_version d (by rw [hdv]; exact h1), hdv]
    rw [extractDataBits_eq_of_lt _ _ _ (by rw [hf]; omega), hf,
      Nat.mod_eq_of_lt (by omega)]
    omega
  have htime : extractDataBits (getPacket d) 32 32 = timeMark := by
    have hf : fieldVal (getPacket d) 32 32 = timeMark.natAbs % 4294967296 := by
      rw [fieldVal_getPacket_timeMark d (by rw [hdt]; exact h5), hdt]
    rw [extractDataBits_eq_of_lt _ _ _ (by rw [hf]; omega), hf,
      Nat.mod_eq_of_lt (by omega)]
    omega
  have himg : extractDataBits (getPacket d) 64 4 = imgType := by
    have hf : fieldVal (getPacket d) 64 4 = imgType.natAbs % 16 := by
      rw [fieldVal_getPacket_imgType d (by rw [hdi]; exact h7), hdi]
    rw [extractDataBits_eq_of_lt _ _ _ (by rw [hf]; omega), hf,
      Nat.mod_eq_of_lt (by omega)]
    omega
  have hnl : extractDataBits (getPacket d) 68 28 = (name.length : Nat) := by
    have hf : fieldVal (getPacket d) 68 28 = name.length := by
      rw [fieldVal_getPacket_nameLength d, hdl, Nat.mod_eq_of_lt (by omega)]
    rw [extractDataBits_eq_of_lt _ _ _ (by rw [hf]; omega), hf]
  have hlenP : (getPacket d).length = 12 + name.length := by
    rw [getPacket_length, hdl]
  have hfile : getFileName (getPacket d) = name := by
    simp only [getFileName]
    rw [hnl, jsSlice]
    have htn : ((12 : Int) + ((name.length : Nat) : Int)).toNat = 12 + name.length := by
      omega
    have hs12 : ((12 : Int)).toNat = 12 := rfl
    rw [htn, hs12, ← hlenP, List.take_length, getPacket_drop_ascii d h9 hdl,
      show d.imgName = name from rfl, utf8Dec_ascii _ h9]
  rw [show extractDetails (getPacket d) =
    { version := extractDataBits (getPacket d) 0 4,
      timestamp := extractDataBits (getPacket d) 32 32,
      imageType := extractDataBits (getPacket d) 64 4,
      fileName := getFileName (getPacket d) } from rfl]
  rw [hver, htime, himg, hfile]

/-- C1 witness: the amended round trip at the concrete tuple
(1, 0, 5, 1, "a"). -/
theorem C1_round_trip_amended_witness :
    extractDetails (getPacket (initializeDetails 1 0 5 1 [97])) =
      { version := 1, timestamp := 5, imageType := 1, fileName := [97] } :=
  C1_round_trip_amended 1 0 5 1 [97] (by norm_num) (by norm_num) (by norm_num)
    (by norm_num) (by norm_num) (by norm_num) (by norm_num) (by norm_num)
    (by decide) (by decide)

set_option maxRecDepth 6000 in
/-- C2: evaluation at the failing input. A request whose 32-bit timeMark field
holds 4294967295 (most significant bit set) is answered with a response whose
time field holds 1, not 4294967295: `extractDataBits` reads the field as the
signed value `-1` and `encodeBitSection` re-encodes the magnitude of that
negative number. -/
theorem C2_timestamp_echo_bug :
    extractDataBits (getPacket (initializeDetails 1 0 4294967295 1 [97])) 32 32 = -1 ∧
    extractBits ((handleData (fun _ => false) (fun _ => [])
      (getPacket (initializeDetails 1 0 4294967295 1 [97])) 1).sent.getD 0 []) 32 32 = 1 ∧
    (1 : Int) ≠ (4294967295 : Int) := by
  decide

/-- C3: evaluation at the failing input. One tick of the timestamp counter
from 5 yields 0, not 6: in JavaScript `1 << 32` is `1`, so the intended
wrap-around mask `(1 << 32) - 1` is `0` and `incrementTimestamp` resets the
counter to the constant 0 on every tick, whatever the starting value. -/
theorem C3_timestamp_tick_bug :
    incrementTimestamp 5 = 0 ∧ incrementTimestamp 0 = 0 ∧
    incrementTimestamp 4294967295 = 0 ∧ (0 : Int) ≠ (6 : Int) := by
  decide

set_option maxRecDepth 6000 in
/-- C4: evaluation at the failing input. On a received response that decodes
to Not Found (type 2, built by the server itself for an unresolvable request),
the client's `data` handler still writes a local file (the empty payload) and
still invokes the external viewer — the handler never inspects the type
field. -/
theorem C4_not_found_client_bug :
    (handleResponse [97, 46, 103, 105, 102]
      ((handleData (fun _ => false) (fun _ => [])
        (getPacket (initializeDetails 1 0 7 5 [97])) 3).sent.getD 0 [])).details.type = 2 ∧
    (handleResponse [97, 46, 103, 105, 102]
      ((handleData (fun _ => false) (fun _ => [])
        (getPacket (initializeDetails 1 0 7 5 [97])) 3).sent.getD 0 [])).savedFiles =
      [([97, 46, 103, 105, 102], [])] ∧
    (handleResponse [97, 46, 103, 105, 102]
      ((handleData (fun _ => false) (fun _ => [])
        (getPacket (initializeDetails 1 0 7 5 [97])) 3).sent.getD 0 [])).viewerOpened =
      [[97, 46, 103, 105, 102]] := by
  decide

set_option maxRecDepth 6000 in
/-- C5 counterexample: a buffer of 13 bytes whose header declares nameLength 3
(so shorter than 12 + 3) is not rejected: `getFileName` silently returns the
one available byte, a truncated name, instead of failing with a decode
error. -/
theorem C5_short_buffer_counterexample :
    ((getPacket (initializeDetails 1 0 0 1 [97, 98, 99])).take 13).length = 13 ∧
    extractDataBits ((getPacket (initializeDetails 1 0 0 1 [97, 98, 99])).take 13) 68 28 = 3 ∧
    (13 : Nat) < 12 + 3 ∧
    getFileName ((getPacket (initializeDetails 1 0 0 1 [97, 98, 99])).take 13) = [97] := by
  decide

/-- C5 (amended): the decoders perform no length validation and cannot fail:
for every buffer, `getFileName` returns the declared number of name bytes
clamped to the bytes that are actually present (never reading past the
buffer), and the client's handler unconditionally processes whatever arrived,
saving exactly the bytes after offset 12. -/
theorem C5_no_length_check_amended (data imageName : List Nat) :
    getFileName data =
      utf8Dec ((data.drop 12).take (extractDataBits data 68 28).toNat) ∧
    ((data.drop 12).take (extractDataBits data 68 28).toNat).length ≤ data.length - 12 ∧
    (handleResponse imageName data).savedFiles = [(imageName, data.drop 12)] := by
  refine ⟨?_, ?_, ?_⟩
  · simp only [getFileName, jsSlice]
    have hns : 0 ≤ extractDataBits data 68 28 := by
      rw [extractDataBits_eq_of_lt _ _ _
        (lt_trans (fieldVal_lt data 28 68) (by norm_num))]
      positivity
    have ht : ((12 : Int) + extractDataBits data 68 28).toNat =
        12 + (extractDataBits data 68 28).toNat := by omega
    rw [ht, show (12 : Int).toNat = 12 from rfl, List.drop_take,
      Nat.add_sub_cancel_left]
  · rw [List.length_take, List.length_drop]
    omega
  · simp only [handleResponse, saveImage, jsSlice]
    have ht : ((data.length : Nat) : Int).toNat = data.length := by omega
    rw [ht, show (12 : Int).toNat = 12 from rfl, List.take_length]

/-- C6 counterexample: from the valid seed 1 the 1000th call of the sequence
counter returns 2, not 1 (the counter has period 999, so the 1000th call
repeats the 1st call, which from seed 1 returns 2). -/
theorem C6_sequence_cycle_counterexample :
    seqCall 1 1000 = 2 ∧ (2 : Nat) ≠ 1 := by
  refine ⟨?_, by norm_num⟩
  rw [seqCall_closed 1 (le_refl 1) (by norm_num) 1000]

/-- C6 (amended): from any valid seed `s ∈ [1, 999]`, 999 calls return the
counter to `s`, so the 1000th call returns the same value as the 1st call
(it returns 1 exactly for seed 999); and every value the counter emits lies
in `[1, 999]` — in particular it is never 0. -/
theorem C6_sequence_cycle_amended (s : Nat) (h1 : 1 ≤ s) (h2 : s ≤ 999) :
    seqCall s 999 = s ∧
    seqCall s 1000 = seqCall s 1 ∧
    seqCall 999 1000 = 1 ∧
    (∀ n, 1 ≤ seqCall s (n + 1) ∧ seqCall s (n + 1) ≤ 999) := by
  refine ⟨?_, ?_, ?_, ?_⟩
  · rw [seqCall_closed s h1 h2 999]
    omega
  · rw [seqCall_closed s h1 h2 1000, seqCall_closed s h1 h2 1]
    omega
  · rw [seqCall_closed 999 (by norm_num) (le_refl 999) 1000]
  · intro n
    rw [seqCall_closed s h1 h2 (n + 1)]
    omega

/-- C6 witness: the amended statement at seed 1. -/
theorem C6_sequence_cycle_amended_witness :
    seqCall 1 999 = 1 ∧ seqCall 1 1000 = seqCall 1 1 ∧ seqCall 999 1000 = 1 ∧
    (∀ n, 1 ≤ seqCall 1 (n + 1) ∧ seqCall 1 (n + 1) ≤ 999) :=
  C6_sequence_cycle_amended 1 (le_refl 1) (by norm_num)

/-- C7: for every request whose resolved resource path does not exist, the
server's `data` handler sends exactly one response — a bare 12-byte header
whose type field decodes to 2 and whose size field decodes to 0, with no
payload bytes — and closes the connection only after sending it: resource
absence is answered, never dropped. -/
theorem C7_not_found_single_error_response (fsE : ResourcePath → Bool)
    (fC : ResourcePath → List Nat) (data : List Nat) (s : Nat)
    (h : fsE (constructFilePath (extractDetails data).fileName
      (extractDetails data).imageType) = false) :
    (handleData fsE fC data s).sent.length = 1 ∧
    ((handleData fsE fC data s).sent.getD 0 []).length = 12 ∧
    extractBits ((handleData fsE fC data s).sent.getD 0 []) 4 2 = 2 ∧
    extractBits ((handleData fsE fC data s).sent.getD 0 []) 64 32 = 0 ∧
    (handleData fsE fC data s).closed = true := by
  simp only [handleData, h, Bool.false_eq_true, if_false]
  refine ⟨rfl, ?_, ?_, ?_, trivial⟩
  · simp only [sendErrorResponse, List.getD_cons_zero, preparePacket_none_fst]
    exact assemblePacket_length _
  · simp only [sendErrorResponse, List.getD_cons_zero, preparePacket_none_fst]
    rw [extractBits_eq, fieldVal_assemblePacket_type]
    norm_num
    decide
  · simp only [sendErrorResponse, List.getD_cons_zero, preparePacket_none_fst]
    rw [extractBits_eq, fieldVal_assemblePacket_size]
    norm_num
    decide

/-- C7 witness: the not-found response shape on a concrete exchange (empty
request buffer, a file system with no resources, counter state 1). -/
theorem C7_not_found_single_error_response_witness :
    (handleData (fun _ => false) (fun _ => []) [] 1).sent.length = 1 ∧
    ((handleData (fun _ => false) (fun _ => []) [] 1).sent.getD 0 []).length = 12 ∧
    extractBits ((handleData (fun _ => false) (fun _ => []) [] 1).sent.getD 0 []) 4 2 = 2 ∧
    extractBits ((handleData (fun _ => false) (fun _ => []) [] 1).sent.getD 0 []) 64 32 = 0 ∧
    (handleData (fun _ => false) (fun _ => []) [] 1).closed = true :=
  C7_not_found_single_error_response (fun _ => false) (fun _ => []) [] 1 rfl

set_option maxRecDepth 6000 in
/-- C8 counterexample: for the one-character fileName "é" (code 233) the
packed nameLength is 1 (from `toByteArr`'s code-unit byte decomposition), but
the encoder places 0 name bytes after the header: `Buffer.write` needs the
2-byte utf8 encoding [195, 169], which does not fit in the 1 reserved byte, so
nothing is written and the payload region keeps its zero fill. -/
theorem C8_name_length_counterexample :
    (initializeDetails 1 0 0 1 [233]).nameLength = 1 ∧
    (getPacket (initializeDetails 1 0 0 1 [233])).length = 13 ∧
    (getPacket (initializeDetails 1 0 0 1 [233])).drop 12 = [0] ∧
    bufferWrite (List.replicate 13 0) [233] 12 = List.replicate 13 0 ∧
    utf8Bytes 233 = [195, 169] := by
  decide

/-- C8 (amended): for every fileName whose characters are all ASCII (code
below 128) and shorter than `2^28`, the packed nameLength equals the number of
bytes the encoder actually places after the 12-byte header (one byte per
character), and a decoder reading nameLength bytes from offset 12 recovers
exactly the transmitted name bytes. -/
theorem C8_name_length_amended (version actionType timeMark imgType : Int)
    (name : List Nat) (h1 : ∀ c ∈ name, c < 128) (h2 : name.length < 268435456) :
    (initializeDetails version actionType timeMark imgType name).nameLength =
      name.length ∧
    (getPacket (initializeDetails version actionType timeMark imgType name)).length =
      12 + name.length ∧
    (getPacket (initializeDetails version actionType timeMark imgType name)).drop 12 =
      name ∧
    jsSlice (getPacket (initializeDetails version actionType timeMark imgType name)) 12
      (12 + extractDataBits
        (getPacket (initializeDetails version actionType timeMark imgType name)) 68 28) =
      name := by
  set d := initializeDetails version actionType timeMark imgType name with hd
  have hdl : d.nameLength = name.length := calculateNameLength_ascii name h1
  have hlenP : (getPacket d).length = 12 + name.length := by
    rw [getPacket_length, hdl]
  have hdrop : (getPacket d).drop 12 = name := by
    rw [getPacket_drop_ascii d h1 hdl]
    rfl
  have hnl : extractDataBits (getPacket d) 68 28 = (name.length : Nat) := by
    have hf : fieldVal (getPacket d) 68 28 = name.length := by
      rw [fieldVal_getPacket_nameLength d, hdl, Nat.mod_eq_of_lt (by omega)]
    rw [extractDataBits_eq_of_lt _ _ _ (by rw [hf]; omega), hf]
  refine ⟨hdl, hlenP, hdrop, ?_⟩
  rw [hnl, jsSlice]
  have htn : ((12 : Int) + ((name.length : Nat) : Int)).toNat = 12 + name.length := by
    omega
  rw [htn, show (12 : Int).toNat = 12 from rfl, ← hlenP, List.take_length, hdrop]

/-- C8 witness: the amended statement at the tuple (1, 0, 0, 1, "ab"). -/
theorem C8_name_length_amended_witness :
    (initializeDetails 1 0 0 1 [97, 98]).nameLength = 2 ∧
    (getPacket (initializeDetails 1 0 0 1 [97, 98])).length = 12 + 2 ∧
    (getPacket (initializeDetails 1 0 0 1 [97, 98])).drop 12 = [97, 98] ∧
    jsSlice (getPacket (initializeDetails 1 0 0 1 [97, 98])) 12
      (12 + extractDataBits (getPacket (initializeDetails 1 0 0 1 [97, 98])) 68 28) =
      [97, 98] :=
  C8_name_length_amended 1 0 0 1 [97, 98] (by decide) (by decide)

/-- C9: bit-field isolation. Writing a field that fits the in-capacity range
`[off, off + w)` with the client's `insertData` or the server's
`encodeBitSection` leaves every bit outside that range — whether previously 0
or 1 — exactly as it was. -/
theorem C9_bit_field_isolation (buf : List Nat) (d : Int) (off w p : Nat)
    (hcap : off + w ≤ 8 * buf.length) (hfit : d.natAbs < 2 ^ w)
    (hp : p < off ∨ off + w ≤ p) :
    getBufBit (insertData buf d off w) p = getBufBit buf p ∧
    getBufBit (encodeBitSection buf d off w) p = getBufBit buf p :=
  ⟨getBufBit_insertData_frame buf d off w p hp,
    getBufBit_encodeBitSection_frame buf d off w p hp⟩

/-- C9 witness: writing value 1 into bits 4..7 of the two-byte buffer
[0, 255] (a zero byte and an all-ones byte) leaves bit 0 unchanged. -/
theorem C9_bit_field_isolation_witness :
    getBufBit (insertData [0, 255] 1 4 4) 0 = getBufBit [0, 255] 0 ∧
    getBufBit (encodeBitSection [0, 255] 1 4 4) 0 = getBufBit [0, 255] 0 :=
  C9_bit_field_isolation [0, 255] 1 4 4 0 (by norm_num) (by norm_num)
    (Or.inl (by norm_num))

/-- C10: every completed exchange draws the process-wide sequence counter
twice: once at connection time (`manageClient`, used only for the log line)
and once in `preparePacket`, and the second draw is the one in bits 6..31 of
the response; the logged number is never the wire number, and when exchanges
are served one after the other the wire sequence numbers of consecutive
responses differ by 2 in the 1..999 cycle. -/
theorem C10_two_sequence_draws (fsE : ResourcePath → Bool)
    (fC : ResourcePath → List Nat) (data : List Nat) (s : Nat)
    (h1 : 1 ≤ s) (h2 : s ≤ 999)
    (fsE2 : ResourcePath → Bool) (fC2 : ResourcePath → List Nat) (data2 : List Nat) :
    (manageClient fsE fC data s).logged = incrementSequence s ∧
    (manageClient fsE fC data s).effects.seqState =
      incrementSequence (incrementSequence s) ∧
    extractBits ((manageClient fsE fC data s).effects.sent.getD 0 []) 6 26 =
      ((incrementSequence (incrementSequence s) : Nat) : Int) ∧
    (manageClient fsE fC data s).logged ≠ incrementSequence (incrementSequence s) ∧
    incrementSequence (incrementSequence s) = (s + 1) % 999 + 1 ∧
    extractBits ((manageClient fsE2 fC2 data2
        ((manageClient fsE fC data s).effects.seqState)).effects.sent.getD 0 []) 6 26 =
      (((incrementSequence (incrementSequence s) + 1) % 999 + 1 : Nat) : Int) := by
  have hE : (manageClient fsE fC data s).effects =
      handleData fsE fC data (incrementSequence s) := rfl
  have hhd := handleData_sequence fsE fC data (incrementSequence s)
  have hst : (manageClient fsE fC data s).effects.seqState =
      incrementSequence (incrementSequence s) := by
    rw [hE]
    exact hhd.1
  refine ⟨rfl, hst, ?_, ?_, ?_, ?_⟩
  · rw [hE]
    exact hhd.2.2
  · show incrementSequence s ≠ incrementSequence (incrementSequence s)
    unfold incrementSequence
    omega
  · unfold incrementSequence
    omega
  · rw [hst]
    have hE2 : (manageClient fsE2 fC2 data2
        (incrementSequence (incrementSequence s))).effects =
        handleData fsE2 fC2 data2
          (incrementSequence (incrementSequence (incrementSequence s))) := rfl
    rw [hE2]
    have hhd2 := handleData_sequence fsE2 fC2 data2
      (incrementSequence (incrementSequence (incrementSequence s)))
    rw [hhd2.2.2]
    have hb := incrementSequence_bounds (incrementSequence s)
    congr 1
    unfold incrementSequence
    unfold incrementSequence at hb
    omega

/-- C10 witness: the double draw on a concrete pair of serial exchanges
(empty file system, empty request buffers, seed 1). -/
theorem C10_two_sequence_draws_witness :
    (manageClient (fun _ => false) (fun _ => []) [] 1).logged = incrementSequence 1 ∧
    (manageClient (fun _ => false) (fun _ => []) [] 1).effects.seqState =
      incrementSequence (incrementSequence 1) ∧
    extractBits ((manageClient (fun _ => false) (fun _ => []) [] 1).effects.sent.getD 0 [])
      6 26 = ((incrementSequence (incrementSequence 1) : Nat) : Int) ∧
    (manageClient (fun _ => false) (fun _ => []) [] 1).logged ≠
      incrementSequence (incrementSequence 1) ∧
    incrementSequence (incrementSequence 1) = (1 + 1) % 999 + 1 ∧
    extractBits ((manageClient (fun _ => false) (fun _ => []) []
        ((manageClient (fun _ => false) (fun _ => []) [] 1).effects.seqState)).effects.sent.getD
        0 []) 6 26 =
      (((incrementSequence (incrementSequence 1) + 1) % 999 + 1 : Nat) : Int) :=
  C10_two_sequence_draws (fun _ => false) (fun _ => []) [] 1 (le_refl 1) (by norm_num)
    (fun _ => false) (fun _ => []) []
